import Mathlib

/-!
Verification of the `volatile_unique_id` crate (src/lib.rs): a recyclable
integer-identifier pool.  The pool state `GeneratorInner` holds a free list
`ids` (a `Vec<usize>` used as a stack: push/pop at the end) and a high-water
counter `allocated`.  `Generator::generate` pops a free slot, or grows the
pool by `chunk_size` when the free list is empty.  Dropping the last
reference to an `IdInner` pushes its slot back onto the free list.

Representation choice: the Rust `Vec` is only ever pushed to and popped from
at its end, i.e. used as a stack.  We model it as a `List Nat` whose HEAD is
the top of the stack (the most recently pushed element); the Rust vector's
elements appear in our list in reverse order.  So `Vec::pop` is matching on
the head, `Vec::push v` is `v :: ids`, and `(0..n).collect()` (whose stack
top is `n-1`) is `(List.range n).reverse`.
-/

/-- Pool state, from `struct GeneratorInner { ids: Vec<usize>, allocated: usize }`.
`ids` is the free list (stack top at the list head), `allocated` the count of
slots ever minted. -/
structure GeneratorInner where
  ids : List Nat
  allocated : Nat
deriving Repr, DecidableEq

/-- The generator, from `struct Generator { inner: Arc<Mutex<GeneratorInner>>, chunk_size: usize }`.
The `Arc<Mutex<..>>` sharing and locking are modelled by explicit state
passing; the lock never fails in the single-threaded model. -/
structure Generator where
  inner : GeneratorInner
  chunk_size : Nat
deriving Repr, DecidableEq

/-- `Generator::generate` (src/lib.rs lines 16-46).  Returns the minted slot
value together with the updated generator state.
If the free list is non-empty (`inner.ids.pop()` is `Some`), the popped slot
is returned.  Otherwise the pool grows: `allocated += chunk_size`,
`last_index = allocated - 1`, the loop `for value in old_allocated..last_index`
pushes the slots `old_allocated, old_allocated+1, ...` in order (so
`last_index - 1` ends on top of the stack, i.e. at our list head), and
`last_index` itself is returned without entering the free list. -/
def Generator.generate (g : Generator) : Nat × Generator :=
  match g.inner.ids with
  | value :: rest =>
    (value, { g with inner := { g.inner with ids := rest } })
  | [] =>
    let old_allocated := g.inner.allocated
    let allocated := old_allocated + g.chunk_size
    let last_index := allocated - 1
    (last_index,
      { g with inner :=
        { ids := (List.range' old_allocated (last_index - old_allocated)).reverse
          allocated := allocated } })

/-- `impl Drop for IdInner` (src/lib.rs lines 94-100): when the last reference
to an allocation record is dropped, its `value` is pushed back onto the free
list of the parent pool. -/
def IdInner.drop (g : Generator) (value : Nat) : Generator :=
  { g with inner := { g.inner with ids := value :: g.inner.ids } }

/-- `struct GeneratorBuilder { chunk_size: usize, default_size: usize }`. -/
structure GeneratorBuilder where
  chunk_size : Nat
  default_size : Nat
deriving Repr, DecidableEq

/-- `impl Default for GeneratorBuilder`: `chunk_size = 128`, `default_size = 128`. -/
def GeneratorBuilder.default : GeneratorBuilder :=
  { chunk_size := 128, default_size := 128 }

/-- `GeneratorBuilder::new`, which returns `Default::default()`. -/
def GeneratorBuilder.new : GeneratorBuilder :=
  GeneratorBuilder.default

/-- `GeneratorBuilder::with_chunk_size`: `assert!(chunk_size > 0)` then store.
The `assert!` panic on `chunk_size = 0` is modelled as `none`. -/
def GeneratorBuilder.with_chunk_size (b : GeneratorBuilder) (c : Nat) :
    Option GeneratorBuilder :=
  if 0 < c then some { b with chunk_size := c } else none

/-- `GeneratorBuilder::with_size`: stores `default_size`. -/
def GeneratorBuilder.with_size (b : GeneratorBuilder) (size : Nat) :
    GeneratorBuilder :=
  { b with default_size := size }

/-- `GeneratorBuilder::build` (src/lib.rs lines 78-86): the free list is
`(0..default_size).collect()` (stack top `default_size - 1`, hence
`(List.range _).reverse` in our head-is-top representation) and
`allocated = default_size`. -/
def GeneratorBuilder.build (b : GeneratorBuilder) : Generator :=
  { chunk_size := b.chunk_size
    inner :=
      { ids := (List.range b.default_size).reverse
        allocated := b.default_size } }

/-- `n` successive calls to `generate` with all resulting handles held live
(no releases in between): returns the list of minted values in call order and
the final generator state. -/
def generateN (g : Generator) : Nat → List Nat × Generator
  | 0 => ([], g)
  | n + 1 =>
    let p := g.generate
    let q := generateN p.2 n
    (p.1 :: q.1, q.2)

/-- Releasing a list of slot values one after the other (each release is the
`Drop` of the last reference to that slot's allocation record). -/
def releaseAll (g : Generator) : List Nat → Generator
  | [] => g
  | v :: vs => releaseAll (IdInner.drop g v) vs

/-- Debug formatting of the private `IdInner` (`impl Debug for IdInner`,
src/lib.rs lines 109-116): writes exactly `Id(<value>)`. -/
def IdInner.debugFmt (value : Nat) : String :=
  "Id(" ++ toString value ++ ")"

/-- Debug formatting of the public `Id` type, which is
`#[derive(Clone, Eq, PartialEq, Debug, Hash)] pub struct Id { inner: Arc<IdInner> }`.
Rust's derived `Debug` for a braced struct prints the struct name followed by
each field name and its field's `Debug` output; `Arc<T>`'s `Debug` delegates
to `T`.  So `{:?}` on an `Id` yields `Id \x7b inner: Id(<value>) \x7d`. -/
def Id.debugFmt (value : Nat) : String :=
  "Id \x7b inner: " ++ IdInner.debugFmt value ++ " \x7d"

/-!
## System states with live handles

To reason about handle lifetimes (`Arc<IdInner>` reference counting) we track,
next to the pool, the list of live allocation records.  Each record is a pair
`(value, rc)`: the slot it denotes and the number of live `Id` clones
referencing it (the `Arc` strong count).
-/

/-- A system state: the generator plus the live allocation records. -/
structure SysState where
  gen : Generator
  live : List (Nat × Nat)
deriving Repr, DecidableEq

/-- A `generate()` call: mints a value and creates a fresh record with one
reference (`Arc::new(IdInner { .. })`). -/
def SysState.generateOp (s : SysState) : SysState :=
  { gen := (s.gen.generate).2, live := ((s.gen.generate).1, 1) :: s.live }

/-- `Id::clone` on the `i`-th live record: bumps its reference count
(`Arc` clone); no pool interaction at all. -/
def SysState.cloneOp (s : SysState) (i : Nat) : SysState :=
  match s.live[i]? with
  | none => s
  | some (v, rc) => { s with live := s.live.set i (v, rc + 1) }

/-- Releasing one reference to the `i`-th live record.  If it was the last
reference (`rc ≤ 1`), the record is destroyed and `IdInner::drop` pushes its
value back onto the free list; otherwise only the count drops. -/
def SysState.releaseOp (s : SysState) (i : Nat) : SysState :=
  match s.live[i]? with
  | none => s
  | some (v, rc) =>
    if rc ≤ 1 then
      { gen := IdInner.drop s.gen v, live := s.live.eraseIdx i }
    else
      { s with live := s.live.set i (v, rc - 1) }

/-- One step of the system: an allocation, a handle clone, or a handle
release. -/
inductive SysStep : SysState → SysState → Prop where
  | generateStep (s : SysState) : SysStep s s.generateOp
  | cloneStep (s : SysState) (i : Nat) : SysStep s (s.cloneOp i)
  | releaseStep (s : SysState) (i : Nat) : SysStep s (s.releaseOp i)

/-- States reachable from a freshly built generator (any builder with a
positive chunk size — the only ones the Rust API can produce) with no live
handles. -/
inductive Reachable : SysState → Prop where
  | init (b : GeneratorBuilder) (hb : 0 < b.chunk_size) :
      Reachable { gen := b.build, live := [] }
  | step {s s' : SysState} : Reachable s → SysStep s s' → Reachable s'

/-- The pool invariant: the free list together with the live slots is a
permutation of `[0, allocated)` (hence: no duplicates anywhere, and every
slot below the high-water mark is free or live but never both), every live
record has a positive reference count, and the chunk size is positive. -/
def SysInv (s : SysState) : Prop :=
  (s.gen.inner.ids ++ s.live.map Prod.fst).Perm
    (List.range s.gen.inner.allocated) ∧
  (∀ p ∈ s.live, 0 < p.2) ∧ 0 < s.gen.chunk_size

/-! ## Basic lemmas about the operations -/

/-- `generate` never changes `chunk_size`. -/
theorem Generator.generate_chunk_size (g : Generator) :
    (g.generate).2.chunk_size = g.chunk_size := by
  cases h : g.inner.ids <;> simp [Generator.generate, h]

/-- While the free list holds at least `n` slots, `n` calls to `generate`
simply pop the top `n` slots: the values are `ids.take n` (in stack order),
the remaining free list is `ids.drop n`, and neither `allocated` nor
`chunk_size` changes. -/
theorem generateN_pop (n : Nat) (g : Generator) (h : n ≤ g.inner.ids.length) :
    (generateN g n).1 = g.inner.ids.take n ∧
    (generateN g n).2 =
      { g with inner := { g.inner with ids := g.inner.ids.drop n } } := by
  induction n generalizing g with
  | zero => simp [generateN]
  | succ n ih =>
    cases hids : g.inner.ids with
    | nil => simp [hids] at h
    | cons v rest =>
      have hlen : n ≤ rest.length := by
        have : n + 1 ≤ rest.length + 1 := by simpa [hids] using h
        omega
      have hstep : g.generate =
          (v, { g with inner := { g.inner with ids := rest } }) := by
        simp [Generator.generate, hids]
      have := ih { g with inner := { g.inner with ids := rest } } hlen
      simp [generateN, hstep, hids, this.1, this.2]

/-- Releasing the values `vs` one by one pushes them onto the free list (the
last released ends on top), leaving `allocated` and `chunk_size` unchanged. -/
theorem releaseAll_ids (vs : List Nat) (g : Generator) :
    releaseAll g vs =
      { g with inner := { g.inner with ids := vs.reverse ++ g.inner.ids } } := by
  induction vs generalizing g with
  | nil => simp [releaseAll]
  | cons v vs ih =>
    simp [releaseAll, IdInner.drop, ih]

/-- C5: building a generator puts exactly the slots `0 .. default_size`
(exclusive, i.e. the set `{0, ..., default_size - 1}`) in the free list and
sets `allocated = default_size`. -/
theorem build_initial_pool (b : GeneratorBuilder) :
    (b.build).inner.ids.Perm (List.range b.default_size) ∧
    (b.build).inner.allocated = b.default_size :=
  ⟨List.reverse_perm _, rfl⟩

/-- C6: configuring `chunk_size = 0` fails at configuration time (no builder,
hence no pool or generator, is produced), while any `chunk_size > 0` succeeds
and records that chunk size. -/
theorem with_chunk_size_validation (b : GeneratorBuilder) (c : Nat) :
    b.with_chunk_size 0 = none ∧
    (0 < c → b.with_chunk_size c = some { b with chunk_size := c }) := by
  refine ⟨by simp [GeneratorBuilder.with_chunk_size], fun hc => ?_⟩
  simp [GeneratorBuilder.with_chunk_size, hc]

/-- Witness for C6 at `c = 5`. -/
theorem with_chunk_size_validation_witness :
    GeneratorBuilder.new.with_chunk_size 0 = none ∧
    GeneratorBuilder.new.with_chunk_size 5 =
      some { GeneratorBuilder.new with chunk_size := 5 } :=
  ⟨(with_chunk_size_validation GeneratorBuilder.new 5).1,
   (with_chunk_size_validation GeneratorBuilder.new 5).2 (by decide)⟩

/-- C7: LIFO reuse.  Releasing a slot `v` and then calling `generate`
returns exactly `v` (the most recently freed slot) and restores the pool
state; in general, whenever the free list is non-empty, `generate` removes
and returns the top of the stack (the most recently pushed slot), not any
other member of the free list. -/
theorem generate_lifo (g : Generator) (v : Nat) :
    ((IdInner.drop g v).generate = (v, g)) ∧
    (∀ w rest, g.inner.ids = w :: rest →
      g.generate = (w, { g with inner := { g.inner with ids := rest } })) := by
  constructor
  · simp [IdInner.drop, Generator.generate]
  · intro w rest h
    simp [Generator.generate, h]

/-- Witness for C7: on the freshly built pool of size 3 (free stack top `2`),
releasing `7` makes the next `generate` return `7`. -/
theorem generate_lifo_witness :
    ((IdInner.drop (GeneratorBuilder.new.with_size 3).build 7).generate =
      (7, (GeneratorBuilder.new.with_size 3).build)) ∧
    (GeneratorBuilder.new.with_size 3).build.generate =
      (2, { (GeneratorBuilder.new.with_size 3).build with inner :=
        { ((GeneratorBuilder.new.with_size 3).build).inner with ids := [1, 0] } }) :=
  ⟨(generate_lifo (GeneratorBuilder.new.with_size 3).build 7).1,
   (generate_lifo (GeneratorBuilder.new.with_size 3).build 7).2 2 [1, 0] (by decide)⟩

/-- C4: reclaim-and-reuse.  Build the pool with `default_size = S`, allocate
`S` handles (no growth occurs), release all `S` in an arbitrary order `rs`;
the next `S` calls to `generate` return exactly the same set of `S` values
(set equality, stated as a list permutation). -/
theorem reclaim_reuse (S : Nat) (b : GeneratorBuilder) (rs : List Nat)
    (hperm : rs.Perm (generateN ((b.with_size S).build) S).1) :
    ((generateN (releaseAll (generateN ((b.with_size S).build) S).2 rs) S).1).Perm
      ((generateN ((b.with_size S).build) S).1) := by
  set g0 := (b.with_size S).build with hg0
  have hlen0 : g0.inner.ids.length = S := by
    simp [hg0, GeneratorBuilder.build, GeneratorBuilder.with_size]
  have hpop := generateN_pop S g0 (le_of_eq hlen0.symm)
  have hvals : (generateN g0 S).1 = g0.inner.ids := by
    rw [hpop.1, ← hlen0, List.take_length]
  have hdrop : (generateN g0 S).2 =
      { g0 with inner := { g0.inner with ids := [] } } := by
    rw [hpop.2, List.drop_eq_nil_of_le (le_of_eq hlen0)]
  have hrel : releaseAll (generateN g0 S).2 rs =
      { g0 with inner := { g0.inner with ids := rs.reverse } } := by
    rw [hdrop, releaseAll_ids]
    simp
  have hlen2 : S ≤ rs.reverse.length := by
    have h := hperm.length_eq
    rw [hvals] at h
    simp [h, hlen0]
  have hpop2 := generateN_pop S
    { g0 with inner := { g0.inner with ids := rs.reverse } } hlen2
  rw [hrel, hpop2.1]
  have hler : rs.reverse.length ≤ S := by
    have h := hperm.length_eq
    rw [hvals, hlen0] at h
    simp [h]
  rw [List.take_of_length_le hler]
  exact (List.reverse_perm rs).trans hperm

/-- Witness for C4: `S = 3`, default builder, release order `[0, 2, 1]`
(a permutation of the allocated values `[2, 1, 0]`); the next 3 allocations
yield a permutation of `[2, 1, 0]` again. -/
theorem reclaim_reuse_witness :
    ([0, 2, 1] : List Nat).Perm
      (generateN ((GeneratorBuilder.new.with_size 3).build) 3).1 ∧
    ((generateN
        (releaseAll (generateN ((GeneratorBuilder.new.with_size 3).build) 3).2
          [0, 2, 1]) 3).1).Perm
      ((generateN ((GeneratorBuilder.new.with_size 3).build) 3).1) :=
  ⟨by decide, reclaim_reuse 3 GeneratorBuilder.new [0, 2, 1] (by decide)⟩

/-- C3: growth.  With `chunk_size = C` (configured through the builder) and
`default_size = S`, after `S` held allocations the free list is empty and
`allocated = S`; the next `generate` returns `S + C - 1`, sets
`allocated = S + C`, stages exactly the slots `{S, ..., S + C - 2}`
(`List.range' S (C - 1)`) in the free list — the returned value never enters
it — and the following `C - 1` calls return exactly that set with no further
growth (`allocated` stays `S + C`). -/
theorem generate_growth (S C : Nat) (b : GeneratorBuilder)
    (hb : GeneratorBuilder.new.with_chunk_size C = some b) :
    (generateN ((b.with_size S).build) S).2.inner.ids = [] ∧
    (generateN ((b.with_size S).build) S).2.inner.allocated = S ∧
    ((generateN ((b.with_size S).build) S).2.generate).1 = S + C - 1 ∧
    ((generateN ((b.with_size S).build) S).2.generate).2.inner.allocated = S + C ∧
    ((generateN ((b.with_size S).build) S).2.generate).2.inner.ids.Perm
      (List.range' S (C - 1)) ∧
    ((generateN ((b.with_size S).build) S).2.generate).1 ∉
      ((generateN ((b.with_size S).build) S).2.generate).2.inner.ids ∧
    (generateN ((generateN ((b.with_size S).build) S).2.generate).2 (C - 1)).1.Perm
      (List.range' S (C - 1)) ∧
    (generateN ((generateN ((b.with_size S).build) S).2.generate).2
        (C - 1)).2.inner.allocated = S + C := by
  have hC : 0 < C := by
    by_contra h
    simp [GeneratorBuilder.with_chunk_size, h] at hb
  rw [GeneratorBuilder.with_chunk_size, if_pos hC] at hb
  have hbc : b.chunk_size = C := by
    cases hb
    rfl
  set g0 := (b.with_size S).build with hg0
  have hlen0 : g0.inner.ids.length = S := by
    simp [hg0, GeneratorBuilder.build, GeneratorBuilder.with_size]
  have hpop := generateN_pop S g0 (le_of_eq hlen0.symm)
  have hgS : (generateN g0 S).2 =
      { chunk_size := C, inner := { ids := [], allocated := S } } := by
    rw [hpop.2, List.drop_eq_nil_of_le (le_of_eq hlen0), hg0]
    simp [GeneratorBuilder.build, GeneratorBuilder.with_size, hbc]
  have harith : S + C - 1 - S = C - 1 := by omega
  have hgen : ((generateN g0 S).2).generate =
      (S + C - 1,
        { chunk_size := C, inner :=
          { ids := (List.range' S (C - 1)).reverse, allocated := S + C } }) := by
    rw [hgS]
    simp [Generator.generate, harith]
  have hlen1 : ((List.range' S (C - 1)).reverse).length = C - 1 := by
    simp
  have hpop1 := generateN_pop (C - 1)
    { chunk_size := C, inner :=
      { ids := (List.range' S (C - 1)).reverse, allocated := S + C } }
    (le_of_eq hlen1.symm)
  refine ⟨by rw [hgS], by rw [hgS], by rw [hgen], by rw [hgen],
    by rw [hgen]; exact List.reverse_perm _, ?_, ?_, ?_⟩
  · rw [hgen]
    simp only [List.mem_reverse, List.mem_range'_1]
    omega
  · rw [hgen, hpop1.1, List.take_of_length_le (le_of_eq hlen1)]
    exact List.reverse_perm _
  · rw [hgen, hpop1.2]

/-- Witness for C3 at `S = 2`, `C = 3`: the third allocation from a size-2
pool returns `2 + 3 - 1 = 4`, and the two allocations after it return the
set `{2, 3}`. -/
theorem generate_growth_witness :
    GeneratorBuilder.new.with_chunk_size 3 =
      some { chunk_size := 3, default_size := 128 } ∧
    ((generateN ((({ chunk_size := 3, default_size := 128 } :
        GeneratorBuilder).with_size 2).build) 2).2.generate).1 = 2 + 3 - 1 ∧
    (generateN ((generateN ((({ chunk_size := 3, default_size := 128 } :
        GeneratorBuilder).with_size 2).build) 2).2.generate).2 (3 - 1)).1.Perm
      (List.range' 2 (3 - 1)) :=
  ⟨by decide,
   (generate_growth 2 3 { chunk_size := 3, default_size := 128 } (by decide)).2.2.1,
   (generate_growth 2 3 { chunk_size := 3, default_size := 128 }
      (by decide)).2.2.2.2.2.2.1⟩

/-- C10: with `default_size = 0`, `build` succeeds with an empty free list
and `allocated = 0`; the very first `generate` triggers growth, returning
`chunk_size - 1` and leaving exactly `{0, ..., chunk_size - 2}` in the free
list with `allocated = chunk_size`. -/
theorem build_size_zero (C : Nat) (b : GeneratorBuilder)
    (hb : GeneratorBuilder.new.with_chunk_size C = some b) :
    ((b.with_size 0).build).inner.ids = [] ∧
    ((b.with_size 0).build).inner.allocated = 0 ∧
    (((b.with_size 0).build).generate).1 = C - 1 ∧
    (((b.with_size 0).build).generate).2.inner.ids.Perm (List.range (C - 1)) ∧
    (((b.with_size 0).build).generate).2.inner.allocated = C := by
  have hC : 0 < C := by
    by_contra h
    simp [GeneratorBuilder.with_chunk_size, h] at hb
  rw [GeneratorBuilder.with_chunk_size, if_pos hC] at hb
  have hbc : b.chunk_size = C := by
    cases hb
    rfl
  have hbuild : (b.with_size 0).build =
      { chunk_size := C, inner := { ids := [], allocated := 0 } } := by
    simp [GeneratorBuilder.build, GeneratorBuilder.with_size, hbc]
  have hgen : (({ chunk_size := C, inner := { ids := [], allocated := 0 } } :
      Generator)).generate =
      (C - 1,
        { chunk_size := C, inner :=
          { ids := (List.range' 0 (C - 1)).reverse, allocated := C } }) := by
    simp [Generator.generate]
  refine ⟨by rw [hbuild], by rw [hbuild], by rw [hbuild, hgen],
    ?_, by rw [hbuild, hgen]⟩
  rw [hbuild, hgen]
  calc ((List.range' 0 (C - 1)).reverse).Perm (List.range' 0 (C - 1)) :=
        List.reverse_perm _
    _ = List.range (C - 1) := (List.range_eq_range' (C - 1)).symm

/-- Witness for C10 at `chunk_size = 4`: the first allocation from an empty
pool returns `3` and stages `{0, 1, 2}`. -/
theorem build_size_zero_witness :
    GeneratorBuilder.new.with_chunk_size 4 =
      some { chunk_size := 4, default_size := 128 } ∧
    ((({ chunk_size := 4, default_size := 128 } :
        GeneratorBuilder).with_size 0).build).inner.ids = [] ∧
    (((({ chunk_size := 4, default_size := 128 } :
        GeneratorBuilder).with_size 0).build).generate).1 = 4 - 1 ∧
    (((({ chunk_size := 4, default_size := 128 } :
        GeneratorBuilder).with_size 0).build).generate).2.inner.ids.Perm
      (List.range (4 - 1)) :=
  ⟨by decide,
   (build_size_zero 4 { chunk_size := 4, default_size := 128 } (by decide)).1,
   (build_size_zero 4 { chunk_size := 4, default_size := 128 } (by decide)).2.2.1,
   (build_size_zero 4 { chunk_size := 4, default_size := 128 } (by decide)).2.2.2.1⟩


/-- Unfolding of one step of `generateN`. -/
theorem generateN_succ (g : Generator) (n : Nat) :
    generateN g (n + 1) =
      ((g.generate).1 :: (generateN (g.generate).2 n).1,
        (generateN (g.generate).2 n).2) := rfl

/-- One `generate` call moves a value from the free list (or a freshly grown
chunk) to the held values: the pool invariant is preserved with the returned
value added to the held list. -/
theorem generate_perm (g : Generator) (held : List Nat)
    (hC : 0 < g.chunk_size)
    (hinv : (g.inner.ids ++ held).Perm (List.range g.inner.allocated)) :
    ((g.generate).2.inner.ids ++ ((g.generate).1 :: held)).Perm
      (List.range (g.generate).2.inner.allocated) := by
  cases hids : g.inner.ids with
  | cons v rest =>
    have hstep : g.generate =
        (v, { g with inner := { g.inner with ids := rest } }) := by
      simp [Generator.generate, hids]
    rw [hstep]
    show (rest ++ v :: held).Perm (List.range g.inner.allocated)
    refine List.perm_middle.trans ?_
    rw [hids] at hinv
    simpa using hinv
  | nil =>
    have hheld : held.Perm (List.range g.inner.allocated) := by
      simpa [hids] using hinv
    set A := g.inner.allocated with hA
    set k := g.chunk_size - 1 with hk
    have hCk : g.chunk_size = k + 1 := by omega
    have hstep : g.generate =
        (A + k,
          { g with inner :=
            { ids := (List.range' A k).reverse, allocated := A + (k + 1) } }) := by
      simp only [Generator.generate, hids, ← hA, hCk]
      have h1 : A + (k + 1) - 1 = A + k := by omega
      have h2 : A + k - A = k := by omega
      rw [h1, h2]
    rw [hstep]
    show ((List.range' A k).reverse ++ ((A + k) :: held)).Perm
      (List.range (A + (k + 1)))
    have hsplit : List.range (A + (k + 1)) =
        List.range A ++ (List.range' A k ++ [A + k]) := by
      rw [List.range_add, ← List.range'_eq_map_range, List.range'_concat,
        Nat.one_mul]
    have p1 : ((List.range' A k).reverse ++ ((A + k) :: held)).Perm
        ((List.range' A k ++ [A + k]) ++ held) := by
      have h := (List.reverse_perm (List.range' A k)).append_right
        ((A + k) :: held)
      simpa using h
    have p2 : ((List.range' A k ++ [A + k]) ++ held).Perm
        (List.range A ++ (List.range' A k ++ [A + k])) :=
      List.perm_append_comm.trans (hheld.append_right _)
    rw [hsplit]
    exact p1.trans p2

/-- Iterating `generate` preserves the pool invariant, with all minted
values accumulated among the held values; `chunk_size` never changes. -/
theorem generateN_perm (n : Nat) (g : Generator) (held : List Nat)
    (hC : 0 < g.chunk_size)
    (hinv : (g.inner.ids ++ held).Perm (List.range g.inner.allocated)) :
    ((generateN g n).2.inner.ids ++ ((generateN g n).1 ++ held)).Perm
      (List.range (generateN g n).2.inner.allocated) ∧
    (generateN g n).2.chunk_size = g.chunk_size := by
  induction n generalizing g held with
  | zero => exact ⟨by simpa using hinv, rfl⟩
  | succ n ih =>
    have hC' : 0 < (g.generate).2.chunk_size := by
      rw [Generator.generate_chunk_size]; exact hC
    have hstep := generate_perm g held hC hinv
    have hrec := ih (g.generate).2 ((g.generate).1 :: held) hC' hstep
    rw [generateN_succ]
    constructor
    · have hmid : ((generateN (g.generate).2 n).1 ++ ((g.generate).1 :: held)).Perm
          (((g.generate).1 :: (generateN (g.generate).2 n).1) ++ held) := by
        simp
      exact ((hmid.symm.append_left _).trans hrec.1)
    · rw [hrec.2, Generator.generate_chunk_size]

/-- C1: uniqueness.  For any generator whose pool satisfies the invariant
(free list plus currently held values is a permutation of `[0, allocated)` —
true of every state the API can reach) with a positive chunk size, the `n`
values minted by `n` successive `generate()` calls with all handles held
live (no releases in between) are pairwise distinct; moreover none of them
collides with a value already held. -/
theorem generate_uniqueness (g : Generator) (held : List Nat) (n : Nat)
    (hC : 0 < g.chunk_size)
    (hinv : (g.inner.ids ++ held).Perm (List.range g.inner.allocated)) :
    ((generateN g n).1 ++ held).Nodup := by
  have h := (generateN_perm n g held hC hinv).1
  have hnd : ((generateN g n).2.inner.ids ++ ((generateN g n).1 ++ held)).Nodup :=
    h.symm.nodup (List.nodup_range _)
  exact hnd.of_append_right

/-- Witness for C1: from a freshly built pool of size 2 (chunk size 128,
no values held), 5 allocations — which force growth — give 5 pairwise
distinct values. -/
theorem generate_uniqueness_witness :
    ((generateN ((GeneratorBuilder.new.with_size 2).build) 5).1 ++ []).Nodup :=
  generate_uniqueness ((GeneratorBuilder.new.with_size 2).build) [] 5
    (by decide) (by decide)

/-- Setting index `i` to the value it already holds leaves a list unchanged. -/
theorem set_self_of_getElem (l : List Nat) (i : Nat) (a : Nat)
    (h : l[i]? = some a) : l.set i a = l := by
  induction l generalizing i with
  | nil => simp at h
  | cons x t ih =>
    cases i with
    | zero =>
      simp at h
      simp [h]
    | succ i =>
      simp at h
      simp [ih i h]

/-- Putting the element at index `i` back in front of the list with that
index erased is a permutation of the original. -/
theorem cons_eraseIdx_perm (l : List Nat) (i : Nat) (a : Nat)
    (h : l[i]? = some a) : (a :: l.eraseIdx i).Perm l := by
  induction l generalizing i with
  | nil => simp at h
  | cons x t ih =>
    cases i with
    | zero =>
      simp at h
      simp [h]
    | succ i =>
      simp at h
      exact (List.Perm.swap x a _).trans ((ih i h).cons x)

/-- `map` commutes with `eraseIdx`. -/
theorem map_eraseIdx (f : Nat × Nat → Nat) (l : List (Nat × Nat)) (i : Nat) :
    (l.eraseIdx i).map f = (l.map f).eraseIdx i := by
  induction l generalizing i with
  | nil => simp
  | cons x t ih =>
    cases i with
    | zero => simp
    | succ i => simp [ih i]

/-- Bumping or lowering the reference count of a live record does not change
which slots are live. -/
theorem map_fst_set (l : List (Nat × Nat)) (i : Nat) (v rc rc' : Nat)
    (h : l[i]? = some (v, rc)) :
    (l.set i (v, rc')).map Prod.fst = l.map Prod.fst := by
  rw [List.map_set]
  apply set_self_of_getElem
  rw [List.getElem?_map, h]
  rfl

/-- The slot of the `i`-th live record is among the live slots. -/
theorem fst_mem_of_getElem (l : List (Nat × Nat)) (i : Nat) (v rc : Nat)
    (h : l[i]? = some (v, rc)) : v ∈ l.map Prod.fst := by
  have hm : (l.map Prod.fst)[i]? = some v := by
    rw [List.getElem?_map, h]
    rfl
  obtain ⟨hlt, heq⟩ := List.getElem?_eq_some.mp hm
  exact heq ▸ List.getElem_mem hlt

/-- Every step of the system — allocation, clone, release — preserves the
pool invariant. -/
theorem sysInv_step {s s' : SysState} (hinv : SysInv s) (hstep : SysStep s s') :
    SysInv s' := by
  obtain ⟨hperm, hpos, hC⟩ := hinv
  cases hstep with
  | generateStep =>
    refine ⟨?_, ?_, ?_⟩
    · have h := generate_perm s.gen (s.live.map Prod.fst) hC hperm
      simpa [SysState.generateOp] using h
    · intro p hp
      simp [SysState.generateOp] at hp
      rcases hp with h | h
      · simp [h]
      · exact hpos p h
    · have h := Generator.generate_chunk_size s.gen
      simp [SysState.generateOp, h]
      exact hC
  | cloneStep i =>
    cases hi : s.live[i]? with
    | none => exact ⟨by simp [SysState.cloneOp, hi]; exact hperm,
        by simp [SysState.cloneOp, hi]; exact fun a b h => hpos (a, b) h,
        by simp [SysState.cloneOp, hi]; exact hC⟩
    | some p =>
      obtain ⟨v, rc⟩ := p
      refine ⟨?_, ?_, by simp [SysState.cloneOp, hi]; exact hC⟩
      · have h := map_fst_set s.live i v rc (rc + 1) hi
        simp [SysState.cloneOp, hi, h]
        exact hperm
      · intro p hp
        simp [SysState.cloneOp, hi] at hp
        rcases List.mem_or_eq_of_mem_set hp with h | h
        · exact hpos p h
        · simp [h]
  | releaseStep i =>
    cases hi : s.live[i]? with
    | none => exact ⟨by simp [SysState.releaseOp, hi]; exact hperm,
        by simp [SysState.releaseOp, hi]; exact fun a b h => hpos (a, b) h,
        by simp [SysState.releaseOp, hi]; exact hC⟩
    | some p =>
      obtain ⟨v, rc⟩ := p
      by_cases hrc : rc ≤ 1
      · have hs' : s.releaseOp i =
            { gen := IdInner.drop s.gen v, live := s.live.eraseIdx i } := by
          simp [SysState.releaseOp, hi, hrc]
        refine ⟨?_, ?_, by rw [hs']; exact hC⟩
        · rw [hs']
          have hvm : (s.live.map Prod.fst)[i]? = some v := by
            rw [List.getElem?_map, hi]
            rfl
          have hperm2 : (v :: (s.live.eraseIdx i).map Prod.fst).Perm
              (s.live.map Prod.fst) := by
            rw [map_eraseIdx]
            exact cons_eraseIdx_perm _ i v hvm
          show ((v :: s.gen.inner.ids) ++ (s.live.eraseIdx i).map Prod.fst).Perm
            (List.range s.gen.inner.allocated)
          have hmid : ((v :: s.gen.inner.ids) ++
              (s.live.eraseIdx i).map Prod.fst).Perm
              (s.gen.inner.ids ++ (v :: (s.live.eraseIdx i).map Prod.fst)) := by
            simpa using
              (@List.perm_middle Nat v s.gen.inner.ids
                ((s.live.eraseIdx i).map Prod.fst)).symm
          exact hmid.trans ((hperm2.append_left _).trans hperm)
        · intro p hp
          rw [hs'] at hp
          exact hpos p (List.mem_of_mem_eraseIdx hp)
      · have hs' : s.releaseOp i =
            { s with live := s.live.set i (v, rc - 1) } := by
          simp [SysState.releaseOp, hi, hrc]
        refine ⟨?_, ?_, by rw [hs']; exact hC⟩
        · rw [hs']
          have h := map_fst_set s.live i v rc (rc - 1) hi
          show (s.gen.inner.ids ++ (s.live.set i (v, rc - 1)).map Prod.fst).Perm
            (List.range s.gen.inner.allocated)
          rw [h]
          exact hperm
        · intro p hp
          rw [hs'] at hp
          rcases List.mem_or_eq_of_mem_set hp with h | h
          · exact hpos p h
          · have : 0 < rc - 1 := by omega
            simp [h, this]

/-- Every reachable state satisfies the pool invariant. -/
theorem sysInv_reachable {s : SysState} (h : Reachable s) : SysInv s := by
  induction h with
  | init b hb =>
    refine ⟨?_, by simp, hb⟩
    show (((List.range b.default_size).reverse) ++
      (([] : List (Nat × Nat)).map Prod.fst)).Perm (List.range b.default_size)
    rw [List.map_nil, List.append_nil]
    exact List.reverse_perm (List.range b.default_size)
  | step _ hstep ih => exact sysInv_step ih hstep

/-- C2: at every reachable system state, every slot `v < allocated` is in
exactly one of two states — present in the free list, or referenced by at
least one live handle — never both and never neither.  Reachability starts
at `build` and is closed under `generate()`, handle clone, and handle
release, so the partition is preserved by all of them. -/
theorem partition_invariant (s : SysState) (hs : Reachable s) :
    ∀ v, v < s.gen.inner.allocated →
      Xor' (v ∈ s.gen.inner.ids) (v ∈ s.live.map Prod.fst) := by
  obtain ⟨hperm, -, -⟩ := sysInv_reachable hs
  intro v hv
  have hmem : v ∈ s.gen.inner.ids ++ s.live.map Prod.fst :=
    hperm.mem_iff.mpr (List.mem_range.mpr hv)
  have hnd : (s.gen.inner.ids ++ s.live.map Prod.fst).Nodup :=
    hperm.symm.nodup (List.nodup_range _)
  rw [List.nodup_append] at hnd
  obtain ⟨-, -, hdisj⟩ := hnd
  rcases List.mem_append.mp hmem with h | h
  · exact Or.inl ⟨h, fun h2 => hdisj h h2⟩
  · exact Or.inr ⟨h, fun h2 => hdisj h2 h⟩

/-- Witness for C2: in the freshly built state of size 2 (a reachable state),
slot 0 is in the free list and not held by any live handle. -/
theorem partition_invariant_witness :
    Xor'
      (0 ∈ ({ gen := (GeneratorBuilder.new.with_size 2).build,
              live := [] } : SysState).gen.inner.ids)
      (0 ∈ ({ gen := (GeneratorBuilder.new.with_size 2).build,
              live := [] } : SysState).live.map Prod.fst) :=
  partition_invariant
    { gen := (GeneratorBuilder.new.with_size 2).build, live := [] }
    (Reachable.init (GeneratorBuilder.new.with_size 2) (by decide))
    0 (by decide)

/-- C8: cloning a handle does not mint a new slot — the pool is untouched and
the set of live slots is unchanged — and if the `i`-th record (slot `w`) has
at least two references (a clone exists) then releasing one of them leaves
the pool untouched, keeps `w` live, and `w` does not appear among the values
of any number `n` of subsequent `generate()` calls (reclamation happens only
on release of the last reference). -/
theorem clone_defers_reclamation (s : SysState) (i w rc n : Nat)
    (hinv : SysInv s) (hi : s.live[i]? = some (w, rc)) (hrc : 2 ≤ rc) :
    (s.cloneOp i).gen = s.gen ∧
    (s.cloneOp i).live.map Prod.fst = s.live.map Prod.fst ∧
    (s.releaseOp i).gen = s.gen ∧
    w ∈ (s.releaseOp i).live.map Prod.fst ∧
    w ∉ (generateN (s.releaseOp i).gen n).1 := by
  obtain ⟨hperm, hpos, hC⟩ := hinv
  have hrc1 : ¬ rc ≤ 1 := by omega
  have hrel : s.releaseOp i = { s with live := s.live.set i (w, rc - 1) } := by
    simp [SysState.releaseOp, hi, hrc1]
  have hwmem : w ∈ s.live.map Prod.fst := fst_mem_of_getElem s.live i w rc hi
  have hclone : (s.cloneOp i).live = s.live.set i (w, rc + 1) := by
    simp [SysState.cloneOp, hi]
  refine ⟨by simp [SysState.cloneOp, hi],
    by rw [hclone]; exact map_fst_set s.live i w rc (rc + 1) hi,
    by rw [hrel], ?_, ?_⟩
  · rw [hrel]
    show w ∈ (s.live.set i (w, rc - 1)).map Prod.fst
    rw [map_fst_set s.live i w rc (rc - 1) hi]
    exact hwmem
  · rw [hrel]
    show w ∉ (generateN s.gen n).1
    intro hw
    have h := (generateN_perm n s.gen (s.live.map Prod.fst) hC hperm).1
    have hnd : ((generateN s.gen n).2.inner.ids ++
        ((generateN s.gen n).1 ++ s.live.map Prod.fst)).Nodup :=
      h.symm.nodup (List.nodup_range _)
    have hnd2 := hnd.of_append_right
    rw [List.nodup_append] at hnd2
    exact hnd2.2.2 hw hwmem

/-- Witness for C8: in a state with `allocated = 2`, slot 0 free, and slot 1
held by a doubly-referenced record, releasing one reference leaves the pool
untouched and slot 1 absent from the next 3 allocations. -/
theorem clone_defers_reclamation_witness :
    ({ gen := { inner := { ids := [0], allocated := 2 }, chunk_size := 1 },
       live := [(1, 2)] } : SysState).live[0]? = some (1, 2) ∧
    (({ gen := { inner := { ids := [0], allocated := 2 }, chunk_size := 1 },
        live := [(1, 2)] } : SysState).releaseOp 0).gen =
      ({ gen := { inner := { ids := [0], allocated := 2 }, chunk_size := 1 },
         live := [(1, 2)] } : SysState).gen ∧
    1 ∉ (generateN
      (({ gen := { inner := { ids := [0], allocated := 2 }, chunk_size := 1 },
          live := [(1, 2)] } : SysState).releaseOp 0).gen 3).1 :=
  ⟨by decide,
   (clone_defers_reclamation
      { gen := { inner := { ids := [0], allocated := 2 }, chunk_size := 1 },
        live := [(1, 2)] } 0 1 2 3
      ⟨by decide, by decide, by decide⟩ (by decide) (by decide)).2.2.1,
   (clone_defers_reclamation
      { gen := { inner := { ids := [0], allocated := 2 }, chunk_size := 1 },
        live := [(1, 2)] } 0 1 2 3
      ⟨by decide, by decide, by decide⟩ (by decide) (by decide)).2.2.2.2⟩

/-- C9 counterexample: the debug representation of the public `Id` type is
NOT the bare string `Id(<value>)` — at value `0`, the derived formatter
yields `Id \x7b inner: Id(0) \x7d`, not `Id(0)`. -/
theorem id_debug_not_bare : Id.debugFmt 0 ≠ "Id(0)" := by
  decide

/-- C9 (amended): the string `Id(<value>)` is the debug representation of the
internal allocation record `IdInner`; the public `Id` type's derived debug
representation wraps it as `Id \x7b inner: Id(<value>) \x7d` (shown folded at
the concrete value 5). -/
theorem debug_representation (v : Nat) :
    IdInner.debugFmt v = "Id(" ++ toString v ++ ")" ∧
    Id.debugFmt v = "Id \x7b inner: " ++ IdInner.debugFmt v ++ " \x7d" ∧
    Id.debugFmt 5 = "Id \x7b inner: Id(5) \x7d" :=
  ⟨rfl, rfl, by decide⟩
